import Mathlib

/-!
Verification of the SPDX license-header verification tool (`spdx_verify.py`)
against its natural-language specification.

The Python code is shallowly embedded: every definition below is a direct
translation of the corresponding Python function, working on `String` /
`List Char` with explicit, kernel-reducible (structural) recursion.
-/

/-! ## Basic string utilities (models of Python `str` primitives) -/

/-- Model of Python's `pat in s` substring test, on character lists:
`true` iff `pat` occurs contiguously inside `s` (the empty pattern
occurs in every string, as in Python). -/
def containsSub (pat : List Char) : List Char → Bool
  | [] => pat.isEmpty
  | c :: rest => pat.isPrefixOf (c :: rest) || containsSub pat rest

/-- Model of Python's `pat in s` on strings. -/
def strContains (s pat : String) : Bool :=
  containsSub pat.data s.data

/-- Characters stripped by Python's `str.strip()` (ASCII whitespace). -/
def isSpaceChar (c : Char) : Bool :=
  c = ' ' || c = '\t' || c = '\n' || c = '\r' || c = '\x0b' || c = '\x0c'

/-- Model of Python's `str.strip()` on character lists. -/
def trimChars (cs : List Char) : List Char :=
  ((cs.dropWhile isSpaceChar).reverse.dropWhile isSpaceChar).reverse

/-- Model of Python's `str.strip()`. -/
def strTrim (s : String) : String :=
  String.mk (trimChars s.data)

/-- Model of Python's `str.lower()` (ASCII case folding). -/
def lowerStr (s : String) : String :=
  String.mk (s.data.map Char.toLower)

/-- Model of Python's `content.split(sep)` for a one-character separator:
splits on every occurrence, keeping empty pieces; the empty string yields
one empty piece, exactly as in Python. -/
def splitOnChar (sep : Char) : List Char → List (List Char)
  | [] => [[]]
  | c :: rest =>
    let r := splitOnChar sep rest
    if c = sep then
      [] :: r
    else
      match r with
      | h :: t => (c :: h) :: t
      | [] => [[c]]

/-- Model of Python's `content.split("\n")`. -/
def splitLines (content : String) : List String :=
  (splitOnChar '\n' content.data).map String.mk

/-! ## Header matcher (`SPDXVerifier.check_license_header`)

The Python method first resolves a language profile for the file and opens
it; both can fail (unknown type / I/O error) before the content scan.  The
definitions below embed the core content scan: the behaviour of
`check_license_header` on a file that resolved to a language profile and
whose content was read successfully. -/

/-- SPDX constant `SPDX_LICENSE_IDENTIFIER` from the source. -/
def SPDX_LICENSE_IDENTIFIER : String := "SPDX-License-Identifier:"

/-- SPDX constant `SPDX_FILE_COPYRIGHT` from the source. -/
def SPDX_FILE_COPYRIGHT : String := "SPDX-FileCopyrightText:"

/-- The four per-file scan flags accumulated by `check_license_header`
across the first ten lines. -/
structure HeaderFlags where
  license_found : Bool
  copyright_found : Bool
  correct_license : Bool
  correct_copyright : Bool
deriving Repr, DecidableEq

/-- One iteration of the `for line in first_lines` loop of
`check_license_header`: strip the line, then update the four flags. -/
def scanLine (license_id copyright_holder : String) (fl : HeaderFlags)
    (rawLine : String) : HeaderFlags :=
  let line := strTrim rawLine
  let fl1 :=
    if strContains line SPDX_LICENSE_IDENTIFIER then
      { fl with license_found := true,
                correct_license := fl.correct_license || strContains line license_id }
    else fl
  if strContains line SPDX_FILE_COPYRIGHT then
    { fl1 with copyright_found := true,
               correct_copyright := fl1.correct_copyright || strContains line copyright_holder }
  else fl1

/-- `content.split("\n")[:10]` — the lines inspected by the scan. -/
def firstLines (content : String) : List String :=
  (splitLines content).take 10

/-- The flag state after scanning the first ten lines. -/
def scanLines (license_id copyright_holder : String) (lines : List String) : HeaderFlags :=
  lines.foldl (scanLine license_id copyright_holder) ⟨false, false, false, false⟩

/-- The result cascade of `check_license_header` (the if/elif chain after
the scan loop). -/
def headerVerdict (license_id copyright_holder : String) (fl : HeaderFlags) :
    Bool × String :=
  if !fl.license_found && !fl.copyright_found then
    (false, "Missing both license and copyright headers")
  else if !fl.license_found then
    (false, "Missing license header")
  else if !fl.copyright_found then
    (false, "Missing copyright header")
  else if !fl.correct_license && !fl.correct_copyright then
    (false, "Wrong license and copyright (expected " ++ license_id ++ " and " ++
      copyright_holder ++ ")")
  else if !fl.correct_license then
    (false, "Wrong license (expected " ++ license_id ++ ")")
  else if !fl.correct_copyright then
    (false, "Wrong copyright (expected " ++ copyright_holder ++ ")")
  else
    (true, "Valid SPDX headers found")

/-- `SPDXVerifier.check_license_header`, embedded as a function of the
file content (for a file that resolved to a language profile and was read
without error). -/
def check_license_header (license_id copyright_holder content : String) :
    Bool × String :=
  headerVerdict license_id copyright_holder
    (scanLines license_id copyright_holder (firstLines content))

/-! ## Characterisation of the scan loop -/

/-- A (stripped) line contains the license-identifier marker. -/
def hasLic (line : String) : Bool :=
  strContains (strTrim line) SPDX_LICENSE_IDENTIFIER

/-- A (stripped) line contains the copyright marker. -/
def hasCop (line : String) : Bool :=
  strContains (strTrim line) SPDX_FILE_COPYRIGHT

/-- A (stripped) line contains the license marker together with the
expected license identifier. -/
def licOk (license_id line : String) : Bool :=
  hasLic line && strContains (strTrim line) license_id

/-- A (stripped) line contains the copyright marker together with the
expected copyright holder. -/
def copOk (copyright_holder line : String) : Bool :=
  hasCop line && strContains (strTrim line) copyright_holder

theorem scanLine_eq (license_id copyright_holder : String) (fl : HeaderFlags)
    (line : String) :
    scanLine license_id copyright_holder fl line =
      ⟨fl.license_found || hasLic line,
       fl.copyright_found || hasCop line,
       fl.correct_license || licOk license_id line,
       fl.correct_copyright || copOk copyright_holder line⟩ := by
  cases h1 : strContains (strTrim line) SPDX_LICENSE_IDENTIFIER <;>
    cases h2 : strContains (strTrim line) SPDX_FILE_COPYRIGHT <;>
      simp [scanLine, hasLic, hasCop, licOk, copOk, h1, h2]

theorem scanLines_foldl (license_id copyright_holder : String)
    (lines : List String) :
    ∀ fl : HeaderFlags,
      lines.foldl (scanLine license_id copyright_holder) fl =
        ⟨fl.license_found || lines.any hasLic,
         fl.copyright_found || lines.any hasCop,
         fl.correct_license || lines.any (licOk license_id),
         fl.correct_copyright || lines.any (copOk copyright_holder)⟩ := by
  induction lines with
  | nil => intro fl; simp
  | cons l t ih =>
    intro fl
    simp only [List.foldl_cons, scanLine_eq, ih, List.any_cons]
    simp [Bool.or_assoc]

theorem scanLines_eq (license_id copyright_holder : String)
    (lines : List String) :
    scanLines license_id copyright_holder lines =
      ⟨lines.any hasLic, lines.any hasCop,
       lines.any (licOk license_id), lines.any (copOk copyright_holder)⟩ := by
  unfold scanLines
  rw [scanLines_foldl]
  simp

/-- The empty pattern occurs in every string (as for Python's `"" in s`). -/
theorem strContains_empty (s : String) : strContains s "" = true := by
  unfold strContains
  show containsSub "".data s.data = true
  cases s.data with
  | nil => rfl
  | cons c rest => simp [containsSub, List.isPrefixOf]

theorem any_licOk_empty (lines : List String) :
    lines.any (licOk "") = lines.any hasLic := by
  induction lines with
  | nil => rfl
  | cons l t ih => simp [List.any_cons, licOk, strContains_empty, ih]

theorem any_copOk_empty (lines : List String) :
    lines.any (copOk "") = lines.any hasCop := by
  induction lines with
  | nil => rfl
  | cons l t ih => simp [List.any_cons, copOk, strContains_empty, ih]

theorem any_of_any_and {α : Type} (l : List α) (f g : α → Bool)
    (h : l.any (fun x => f x && g x) = true) : l.any f = true := by
  rw [List.any_eq_true] at h ⊢
  obtain ⟨x, hx, hfg⟩ := h
  rw [Bool.and_eq_true] at hfg
  exact ⟨x, hx, hfg.1⟩

/-! ## The decision table from the specification -/

/-- The fixed seven-row decision table of the specification, written
directly from the spec's words: rows keyed on (license found, copyright
found, license correct, copyright correct), evaluated in the spec's fixed
priority order. -/
def decision_table_spec (license_id copyright_holder : String)
    (lf cf cl cc : Bool) : Bool × String :=
  match lf, cf, cl, cc with
  | false, false, _, _ => (false, "Missing both license and copyright headers")
  | false, true, _, _ => (false, "Missing license header")
  | true, false, _, _ => (false, "Missing copyright header")
  | true, true, false, false =>
    (false, "Wrong license and copyright (expected " ++ license_id ++ " and " ++
      copyright_holder ++ ")")
  | true, true, false, true => (false, "Wrong license (expected " ++ license_id ++ ")")
  | true, true, true, false =>
    (false, "Wrong copyright (expected " ++ copyright_holder ++ ")")
  | true, true, true, true => (true, "Valid SPDX headers found")

/-- **C1.** For every file that resolves to a language profile and is read
without I/O error, `check_license_header` returns exactly the verdict of
the fixed seven-row decision table applied to the four flags computed from
the scanned lines. -/
theorem C1_decision_table (license_id copyright_holder content : String) :
    check_license_header license_id copyright_holder content =
      decision_table_spec license_id copyright_holder
        (scanLines license_id copyright_holder (firstLines content)).license_found
        (scanLines license_id copyright_holder (firstLines content)).copyright_found
        (scanLines license_id copyright_holder (firstLines content)).correct_license
        (scanLines license_id copyright_holder (firstLines content)).correct_copyright := by
  unfold check_license_header
  generalize scanLines license_id copyright_holder (firstLines content) = fl
  obtain ⟨a, b, c, d⟩ := fl
  cases a <;> cases b <;> cases c <;> cases d <;> rfl

/-- **C2.** `check_license_header` inspects exactly the first 10
newline-separated lines: (i) the verdict depends only on those lines; (ii)
whenever the first ten lines contain the license marker with the expected
license and the copyright marker with the expected holder, the verdict is
pass "Valid SPDX headers found" regardless of the surrounding content;
(iii) a marker occurring only after the tenth line is not detected: when
no scanned line carries either marker the verdict is the missing-both
failure; (iv) empty content fails with "Missing both license and
copyright headers". -/
theorem C2_first_ten_lines (license_id copyright_holder : String) :
    (∀ c1 c2 : String, firstLines c1 = firstLines c2 →
      check_license_header license_id copyright_holder c1 =
        check_license_header license_id copyright_holder c2) ∧
    (∀ content : String,
      (firstLines content).any (licOk license_id) = true →
      (firstLines content).any (copOk copyright_holder) = true →
      check_license_header license_id copyright_holder content =
        (true, "Valid SPDX headers found")) ∧
    (∀ content : String,
      (firstLines content).any hasLic = false →
      (firstLines content).any hasCop = false →
      check_license_header license_id copyright_holder content =
        (false, "Missing both license and copyright headers")) ∧
    check_license_header license_id copyright_holder "" =
      (false, "Missing both license and copyright headers") := by
  refine ⟨?_, ?_, ?_, ?_⟩
  · intro c1 c2 h
    unfold check_license_header
    rw [h]
  · intro content h1 h2
    unfold check_license_header
    rw [scanLines_eq]
    have hf1 : (firstLines content).any hasLic = true :=
      any_of_any_and _ _ _ (by simpa [licOk] using h1)
    have hf2 : (firstLines content).any hasCop = true :=
      any_of_any_and _ _ _ (by simpa [copOk] using h2)
    rw [hf1, hf2, h1, h2]
    rfl
  · intro content h1 h2
    unfold check_license_header
    rw [scanLines_eq, h1, h2]
    rfl
  · unfold check_license_header
    rw [scanLines_eq]
    have h0 : firstLines "" = [""] := rfl
    rw [h0]
    have hl : hasLic "" = false := rfl
    have hc : hasCop "" = false := rfl
    simp [List.any_cons, licOk, copOk, hl, hc]
    rfl

/-- Witness for C2: a file whose first ten lines carry both correct
markers, with a long trailing line after the tenth line carrying a
conflicting marker, passes. -/
theorem C2_first_ten_lines_witness :
    check_license_header "Apache-2.0" "The Linux Foundation"
      ("# SPDX-License-Identifier: Apache-2.0\n# SPDX-FileCopyrightText: 2025 The Linux Foundation\n3\n4\n5\n6\n7\n8\n9\n10\n# SPDX-License-Identifier: MIT")
      = (true, "Valid SPDX headers found") :=
  (C2_first_ten_lines "Apache-2.0" "The Linux Foundation").2.1 _
    (by decide) (by decide)

/-- **C9 (implicit).** The per-declaration found/correct flags accumulate
disjunctively across the scanned lines: each flag of the scan state is the
`any` of the corresponding per-line test.  Hence a file whose first ten
lines hold both a wrong-license declaration and a correct license and
copyright declaration is classified pass. -/
theorem C9_disjunctive_flags :
    (∀ license_id copyright_holder : String, ∀ lines : List String,
      scanLines license_id copyright_holder lines =
        ⟨lines.any hasLic, lines.any hasCop,
         lines.any (licOk license_id), lines.any (copOk copyright_holder)⟩) ∧
    check_license_header "Apache-2.0" "The Linux Foundation"
      ("# SPDX-License-Identifier: MIT\n# SPDX-License-Identifier: Apache-2.0\n# SPDX-FileCopyrightText: 2025 The Linux Foundation\ncode")
      = (true, "Valid SPDX headers found") := by
  refine ⟨fun license_id copyright_holder lines => scanLines_eq _ _ _, by decide⟩

/-- **C10 (implicit).** With an empty expected license identifier, every
line containing the license marker counts as a correct license, and
symmetrically for an empty expected copyright holder; with both expected
values empty, `check_license_header` can only return the pass verdict or a
missing-header failure — never a wrong-license / wrong-copyright /
wrong-both verdict. -/
theorem C10_empty_expected_values :
    (∀ copyright_holder content : String,
      (scanLines "" copyright_holder (firstLines content)).correct_license =
        (scanLines "" copyright_holder (firstLines content)).license_found) ∧
    (∀ license_id content : String,
      (scanLines license_id "" (firstLines content)).correct_copyright =
        (scanLines license_id "" (firstLines content)).copyright_found) ∧
    (∀ content : String,
      check_license_header "" "" content = (true, "Valid SPDX headers found") ∨
      check_license_header "" "" content =
        (false, "Missing both license and copyright headers") ∨
      check_license_header "" "" content = (false, "Missing license header") ∨
      check_license_header "" "" content = (false, "Missing copyright header")) := by
  refine ⟨?_, ?_, ?_⟩
  · intro copyright_holder content
    rw [scanLines_eq]
    simp [any_licOk_empty]
  · intro license_id content
    rw [scanLines_eq]
    simp [any_copOk_empty]
  · intro content
    unfold check_license_header
    rw [scanLines_eq, any_licOk_empty, any_copOk_empty]
    cases ha : (firstLines content).any hasLic <;>
      cases hb : (firstLines content).any hasCop <;>
        simp [headerVerdict]

/-! ## Path utilities

Models of `pathlib.PurePath.suffix` and `pathlib.PurePath.name`. -/

/-- Index of the last `'.'` in a character list, if any. -/
def rfindDot : List Char → Option Nat
  | [] => none
  | c :: rest =>
    match rfindDot rest with
    | some i => some (i + 1)
    | none => if c = '.' then some 0 else none

/-- Model of `pathlib.PurePath.suffix` computed from the file name:
the part from the last dot, provided that dot is neither the first nor
the last character of the name; otherwise the empty string. -/
def pathSuffix (name : String) : String :=
  match rfindDot name.data with
  | some i =>
    if 0 < i && i + 1 < name.data.length then String.mk (name.data.drop i) else ""
  | none => ""

/-- Model of `pathlib.PurePath.name` for a (normalised, relative) path
string: the last component of the `'/'`-separated path, with empty and
`"."` components dropped. -/
def baseName (s : String) : String :=
  (((splitOnChar '/' s.data).map String.mk).filter
    (fun p => p != "" && p != ".")).getLastD ""

/-! ## Skip-rule engine (`SPDXVerifier._glob_match`, `should_skip_file`)

`_glob_match` delegates wildcard patterns to Python's `fnmatch.fnmatch`;
the definitions `matchSet` / `parseClass` / `fnmatchList` below model that
stdlib shell-style wildcard matcher (`*`, `?`, `[...]` / `[!...]` classes,
with an unterminated `[` treated as a literal). -/

/-- Match a single character against the body of a `[...]` wildcard
class, with `a-b` ranges. -/
def matchSet (c : Char) : List Char → Bool
  | a :: '-' :: b :: rest => (decide (a ≤ c) && decide (c ≤ b)) || matchSet c rest
  | a :: rest => (a == c) || matchSet c rest
  | [] => false

/-- Scan for the closing `']'` of a wildcard class; returns the class
body (accumulated so far in `acc`, reversed) and the remaining pattern. -/
def scanClassBody (acc : List Char) : List Char → Option (List Char × List Char)
  | [] => none
  | c :: rest =>
    if c = ']' then some (acc.reverse, rest) else scanClassBody (c :: acc) rest

theorem scanClassBody_length :
    ∀ (cs acc b r : List Char), scanClassBody acc cs = some (b, r) →
      r.length < cs.length := by
  intro cs
  induction cs with
  | nil => intro acc b r h; simp [scanClassBody] at h
  | cons c rest ih =>
    intro acc b r h
    by_cases hc : c = ']'
    · simp [scanClassBody, hc] at h
      rw [← h.2]
      simp
    · simp [scanClassBody, hc] at h
      have h1 := ih (c :: acc) b r h
      have h2 : (c :: rest).length = rest.length + 1 := rfl
      omega


/-- Handle the start of a wildcard class body just after `'['`: an
optional leading `'!'` negation, then an optional literal `']'` as the
first body character, exactly as `fnmatch.translate` does.  Returns
`(negated, initial body accumulator, remaining pattern)`. -/
def classStart : List Char → Bool × List Char × List Char
  | '!' :: ']' :: t => (true, [']'], t)
  | '!' :: t => (true, [], t)
  | ']' :: t => (false, [']'], t)
  | t => (false, [], t)

theorem classStart_length (cs : List Char) :
    (classStart cs).2.2.length ≤ cs.length := by
  unfold classStart
  split <;> simp <;> omega

/-- Parse a wildcard class starting just after `'['`; returns
`(negated, body, rest)`, or `none` when the class never closes (then the
`'['` is a literal). -/
def parseClass (cs : List Char) : Option (Bool × List Char × List Char) :=
  match scanClassBody (classStart cs).2.1 (classStart cs).2.2 with
  | some (b, r) => some ((classStart cs).1, b, r)
  | none => none

theorem parseClass_length (cs : List Char) (n : Bool) (b r : List Char)
    (h : parseClass cs = some (n, b, r)) : r.length < cs.length := by
  unfold parseClass at h
  cases hs : scanClassBody (classStart cs).2.1 (classStart cs).2.2 with
  | none => rw [hs] at h; exact absurd h (by simp)
  | some p =>
    obtain ⟨pb, pr⟩ := p
    rw [hs] at h
    simp at h
    have h1 := scanClassBody_length (classStart cs).2.2 (classStart cs).2.1 pb pr hs
    have h2 := classStart_length cs
    rw [← h.2.2]
    omega

/-- Model of Python's `fnmatch.fnmatch(s, pattern)` (posix case): full
match of the character list `s` against the shell-style wildcard
`pattern` with `*`, `?` and `[...]` / `[!...]` classes.  A reversed range
is interpreted as matching nothing (CPython surfaces it as a regex error,
which `_glob_match` catches and turns into no-match). -/
def fnmatchList : List Char → List Char → Bool
  | [], [] => true
  | [], _ :: _ => false
  | '*' :: ps, s =>
    fnmatchList ps s ||
      (match s with
       | [] => false
       | _ :: t => fnmatchList ('*' :: ps) t)
  | '?' :: ps, s =>
    (match s with
     | [] => false
     | _ :: t => fnmatchList ps t)
  | '[' :: ps, s =>
    (match hp : parseClass ps with
     | none =>
       match s with
       | '[' :: t => fnmatchList ps t
       | _ => false
     | some nbr =>
       match s with
       | [] => false
       | c :: t =>
         (if nbr.1 then !(matchSet c nbr.2.1) else matchSet c nbr.2.1) &&
           fnmatchList nbr.2.2 t)
  | p :: ps, s =>
    (match s with
     | [] => false
     | c :: t => (p == c) && fnmatchList ps t)
termination_by p s => p.length + s.length
decreasing_by
  all_goals simp only [List.length_cons]
  all_goals try omega
  all_goals (have h := parseClass_length ps nbr.1 nbr.2.1 nbr.2.2 hp; omega)

/-- Model of `fnmatch.fnmatch` on strings. -/
def fnmatchStr (s pattern : String) : Bool :=
  fnmatchList pattern.data s.data

/-- `SPDXVerifier._glob_match`: wildcard patterns go through the
shell-style matcher against both the full path and the bare name;
patterns without a wildcard match by substring containment in the full
path or exact equality with the bare name. -/
def glob_match (path pattern : String) : Bool :=
  if strContains pattern "*" then
    fnmatchStr path pattern || fnmatchStr (baseName path) pattern
  else
    strContains path pattern || (pattern == baseName path)

/-- `SPDXVerifier.should_skip_file` in its fallback branch (no compiled
pathspec matcher): some pattern matches the path string or its bare
name. -/
def should_skip_file (skip_patterns : List String) (file_path : String) : Bool :=
  skip_patterns.any (fun pattern =>
    glob_match file_path pattern || glob_match (baseName file_path) pattern)

/-! ## Substring characterisation -/

theorem isPrefixOf_iff (p : List Char) :
    ∀ s : List Char, p.isPrefixOf s = true ↔ ∃ t, s = p ++ t := by
  induction p with
  | nil => intro s; simp [List.isPrefixOf]
  | cons a as ih =>
    intro s
    cases s with
    | nil => simp [List.isPrefixOf]
    | cons b bs =>
      simp only [List.isPrefixOf, Bool.and_eq_true, beq_iff_eq, ih bs]
      constructor
      · rintro ⟨rfl, t, rfl⟩
        exact ⟨t, rfl⟩
      · rintro ⟨t, ht⟩
        obtain ⟨rfl, rfl⟩ : a = b ∧ bs = as ++ t := by
          constructor
          · exact (List.cons.injEq .. ▸ ht).1.symm
          · exact (List.cons.injEq .. ▸ ht).2
        exact ⟨rfl, t, rfl⟩

theorem containsSub_iff (pat : List Char) :
    ∀ s : List Char, containsSub pat s = true ↔ ∃ pre post, s = pre ++ pat ++ post := by
  intro s
  induction s with
  | nil =>
    cases pat <;> simp [containsSub]
  | cons c rest ih =>
    simp only [containsSub, Bool.or_eq_true, isPrefixOf_iff, ih]
    constructor
    · rintro (⟨t, ht⟩ | ⟨pre, post, hpp⟩)
      · exact ⟨[], t, by simpa using ht⟩
      · exact ⟨c :: pre, post, by simp [hpp]⟩
    · rintro ⟨pre, post, hpp⟩
      cases pre with
      | nil => exact Or.inl ⟨post, by simpa using hpp⟩
      | cons d pre' =>
        right
        refine ⟨pre', post, ?_⟩
        have := (List.cons.injEq .. ▸ (by simpa using hpp : c :: rest = d :: (pre' ++ pat ++ post))).2
        exact this

theorem strContains_iff (s pat : String) :
    strContains s pat = true ↔ ∃ pre post, s.data = pre ++ pat.data ++ post :=
  containsSub_iff pat.data s.data

/-- **C6.** The fallback glob matcher is a total boolean function whose
behaviour splits on the presence of a wildcard: with a `*` it is
shell-style wildcard matching of the full path or the bare name; without
one it is substring containment in the full path or exact equality with
the bare name. -/
theorem C6_glob_match_shape (path pattern : String) :
    glob_match path pattern = true ↔
      (strContains pattern "*" = true ∧
        (fnmatchStr path pattern = true ∨ fnmatchStr (baseName path) pattern = true)) ∨
      (strContains pattern "*" = false ∧
        ((∃ pre post, path.data = pre ++ pattern.data ++ post) ∨
          pattern = baseName path)) := by
  unfold glob_match
  cases hw : strContains pattern "*" with
  | true => simp [hw]
  | false => simp [hw, strContains_iff, beq_iff_eq]

/-- **C5.** The skip decision depends only on the *set* of skip patterns:
it is unchanged under any reordering or duplication of the default,
ignore-file and caller-supplied pattern sources, and repeated evaluation
on the same path gives the same boolean. -/
theorem C5_skip_set_semantics (file_path : String) (p1 p2 : List String) :
    ((∀ x, x ∈ p1 ↔ x ∈ p2) →
      should_skip_file p1 file_path = should_skip_file p2 file_path) ∧
    should_skip_file (p1 ++ p2) file_path = should_skip_file (p2 ++ p1) file_path ∧
    should_skip_file p1.dedup file_path = should_skip_file p1 file_path ∧
    should_skip_file p1 file_path = should_skip_file p1 file_path := by
  have key : ∀ q1 q2 : List String, (∀ x, x ∈ q1 ↔ x ∈ q2) →
      should_skip_file q1 file_path = should_skip_file q2 file_path := by
    intro q1 q2 h
    unfold should_skip_file
    cases hb : q2.any (fun pattern =>
        glob_match file_path pattern || glob_match (baseName file_path) pattern) with
    | true =>
      rw [List.any_eq_true] at hb ⊢
      obtain ⟨x, hx, hgx⟩ := hb
      exact ⟨x, (h x).mpr hx, hgx⟩
    | false =>
      rw [List.any_eq_false] at hb ⊢
      intro x hx
      exact hb x ((h x).mp hx)
  refine ⟨key p1 p2, key _ _ ?_, key _ _ ?_, rfl⟩
  · intro x; simp [List.mem_append]; tauto
  · intro x; simp [List.mem_dedup]

/-- Witness for C5: the same skip decision for two pattern lists that
hold the same patterns in different order and multiplicity. -/
theorem C5_skip_set_semantics_witness :
    should_skip_file ["dist", ".DS_Store"] "sub/dist/x.py" =
      should_skip_file [".DS_Store", "dist", "dist"] "sub/dist/x.py" :=
  (C5_skip_set_semantics "sub/dist/x.py" ["dist", ".DS_Store"]
    [".DS_Store", "dist", "dist"]).1 (by intro x; simp [List.mem_cons]; tauto)

/-! ## Language registry construction (`SPDXVerifier.__init__`)

The `__init__` loop builds `ext_to_lang` / `filename_to_lang` by Python
dict assignment: `self.ext_to_lang[ext.lower()] = lang_name`.  A dict is
modelled as an association list with unique keys; assignment replaces the
value in place for an existing key and appends otherwise. -/

/-- One language entry of the `languages` configuration mapping: its
`extensions` and `filenames` lists (an absent key is the empty list). -/
structure LangConfig where
  extensions : List String
  filenames : List String
deriving Repr, DecidableEq

/-- Python dict assignment `d[k] = v` on an association list. -/
def dictInsert (d : List (String × String)) (k v : String) :
    List (String × String) :=
  if d.any (fun p => p.1 == k) then
    d.map (fun p => if p.1 == k then (k, v) else p)
  else
    d ++ [(k, v)]

/-- Register all of a language's keys (lowercased) into a dict. -/
def registerAll (d : List (String × String)) (keys : List String)
    (lang : String) : List (String × String) :=
  keys.foldl (fun d k => dictInsert d (lowerStr k) lang) d

/-- The `ext_to_lang` dict built by the `__init__` loop over the
`languages` configuration. -/
def build_ext_to_lang (langs : List (String × LangConfig)) :
    List (String × String) :=
  langs.foldl (fun d p => registerAll d p.2.extensions p.1) []

/-- The `filename_to_lang` dict built by the same loop. -/
def build_filename_to_lang (langs : List (String × LangConfig)) :
    List (String × String) :=
  langs.foldl (fun d p => registerAll d p.2.filenames p.1) []

theorem map_fst_overwrite (d : List (String × String)) (k v : String) :
    (d.map (fun p => if p.1 == k then (k, v) else p)).map Prod.fst =
      d.map Prod.fst := by
  induction d with
  | nil => rfl
  | cons p t ih =>
    simp only [List.map_cons, ih]
    by_cases hp : p.1 = k
    · simp [hp]
    · have hb : (p.1 == k) = false := by simp [hp]
      simp [hb]

theorem dictInsert_keys_nodup (d : List (String × String)) (k v : String)
    (h : (d.map Prod.fst).Nodup) :
    ((dictInsert d k v).map Prod.fst).Nodup := by
  cases hm : d.any (fun p => p.1 == k) with
  | true =>
    unfold dictInsert
    rw [if_pos hm, map_fst_overwrite]
    exact h
  | false =>
    unfold dictInsert
    rw [if_neg (by simp [hm]), List.map_append]
    apply List.Nodup.append h (by simp)
    intro x hx hk
    simp at hk
    subst hk
    rw [List.any_eq_false] at hm
    simp only [List.mem_map] at hx
    obtain ⟨p, hp, hpk⟩ := hx
    exact absurd (by simp [hpk]) (hm p hp)

theorem registerAll_keys_nodup (keys : List String) :
    ∀ (d : List (String × String)) (lang : String),
      (d.map Prod.fst).Nodup → ((registerAll d keys lang).map Prod.fst).Nodup := by
  induction keys with
  | nil => intro d lang h; exact h
  | cons k t ih =>
    intro d lang h
    exact ih _ lang (dictInsert_keys_nodup d (lowerStr k) lang h)

theorem foldl_registerAll_nodup (langs : List (String × LangConfig))
    (sel : LangConfig → List String) :
    ∀ d : List (String × String), (d.map Prod.fst).Nodup →
      ((langs.foldl (fun d p => registerAll d (sel p.2) p.1) d).map Prod.fst).Nodup := by
  induction langs with
  | nil => intro d h; exact h
  | cons p t ih =>
    intro d h
    exact ih _ (registerAll_keys_nodup (sel p.2) d p.1 h)

/-! ### Duplicate-extension detection

`tests/test_config.py::test_no_duplicate_extensions` walks the
`languages` mapping and reports an error as soon as any extension has
already been claimed; this is the repository's detector for ambiguous
configurations. -/

/-- One step of the detector: record whether the key was already seen,
then record the key. -/
def detectStep (st : Bool × List String) (e : String) : Bool × List String :=
  (st.1 || st.2.contains e, if st.2.contains e then st.2 else st.2 ++ [e])

/-- `test_no_duplicate_extensions` as a boolean: `true` iff the walk over
all extension lists of the `languages` configuration hits an extension
that was already claimed. -/
def duplicate_extension_error (langs : List (String × LangConfig)) : Bool :=
  (langs.foldl (fun st p => p.2.extensions.foldl detectStep st) (false, [])).1

theorem detect_foldl_snd_sound (l : List String) :
    ∀ (err : Bool) (seen : List String),
      (l.foldl detectStep (err, seen)).1 = true ↔
        err = true ∨ ¬ l.Nodup ∨ ∃ x ∈ l, x ∈ seen := by
  induction l with
  | nil => intro err seen; simp
  | cons e t ih =>
    intro err seen
    rw [List.foldl_cons]
    cases hc : seen.contains e with
    | true =>
      have he : e ∈ seen := by
        rw [List.contains_eq_any_beq, List.any_eq_true] at hc
        obtain ⟨x, hx, hxe⟩ := hc
        rw [beq_iff_eq] at hxe
        exact hxe ▸ hx
      have hstep : detectStep (err, seen) e = (true, seen) := by
        show (err || seen.contains e, if seen.contains e then seen else seen ++ [e]) =
          (true, seen)
        rw [hc]
        simp
      rw [hstep, ih]
      have hRHS : err = true ∨ ¬ (e :: t).Nodup ∨ ∃ x ∈ e :: t, x ∈ seen :=
        Or.inr (Or.inr ⟨e, List.mem_cons_self e t, he⟩)
      have hLHS : true = true ∨ ¬ t.Nodup ∨ ∃ x ∈ t, x ∈ seen := Or.inl rfl
      exact iff_of_true hLHS hRHS
    | false =>
      have he : e ∉ seen := by
        intro hmem
        rw [List.contains_eq_any_beq, List.any_eq_false] at hc
        exact absurd (by simp) (hc e hmem)
      have hstep : detectStep (err, seen) e = (err, seen ++ [e]) := by
        show (err || seen.contains e, if seen.contains e then seen else seen ++ [e]) =
          (err, seen ++ [e])
        rw [hc]
        simp
      rw [hstep, ih]
      constructor
      · rintro (h | h | ⟨x, hx, hxs⟩)
        · exact Or.inl h
        · exact Or.inr (Or.inl (fun hn => h (List.Nodup.of_cons hn)))
        · rcases List.mem_append.mp hxs with hxs2 | hxs2
          · exact Or.inr (Or.inr ⟨x, List.mem_cons_of_mem _ hx, hxs2⟩)
          · have hxe : x = e := by simpa using hxs2
            subst hxe
            exact Or.inr (Or.inl (fun hn => (List.nodup_cons.mp hn).1 hx))
      · rintro (h | h | ⟨x, hx, hxs⟩)
        · exact Or.inl h
        · by_cases het : e ∈ t
          · exact Or.inr (Or.inr ⟨e, het, List.mem_append.mpr (Or.inr (by simp))⟩)
          · exact Or.inr (Or.inl (fun hn => h (List.nodup_cons.mpr ⟨het, hn⟩)))
        · rcases List.mem_cons.mp hx with rfl | hx2
          · exact absurd hxs he
          · exact Or.inr (Or.inr ⟨x, hx2, List.mem_append.mpr (Or.inl hxs)⟩)

theorem detect_nested_eq_join (langs : List (String × LangConfig)) :
    ∀ st : Bool × List String,
      langs.foldl (fun st p => p.2.extensions.foldl detectStep st) st =
        ((langs.map (fun p => p.2.extensions)).join).foldl detectStep st := by
  induction langs with
  | nil => intro st; rfl
  | cons p t ih =>
    intro st
    rw [List.foldl_cons, List.map_cons]
    have hj : (p.2.extensions :: List.map (fun p => p.2.extensions) t).join =
        p.2.extensions ++ (List.map (fun p => p.2.extensions) t).join := by simp
    rw [hj, List.foldl_append, ih]

/-- **C4.** The built registry maps every (lowercased) extension and every
filename to at most one language profile (its key lists are duplicate
free), and a configuration in which the same extension is claimed twice is
exactly what the repository's duplicate-extension check reports as an
error. -/
theorem C4_registry_invariant (langs : List (String × LangConfig)) :
    ((build_ext_to_lang langs).map Prod.fst).Nodup ∧
    ((build_filename_to_lang langs).map Prod.fst).Nodup ∧
    (duplicate_extension_error langs = true ↔
      ¬ ((langs.map (fun p => p.2.extensions)).join).Nodup) := by
  refine ⟨?_, ?_, ?_⟩
  · exact foldl_registerAll_nodup langs LangConfig.extensions [] (by simp)
  · exact foldl_registerAll_nodup langs LangConfig.filenames [] (by simp)
  · unfold duplicate_extension_error
    rw [detect_nested_eq_join, detect_foldl_snd_sound]
    simp

/-- Model of Python's `str.endswith`. -/
def strEndsWith (s suf : String) : Bool :=
  suf.data.isSuffixOf s.data

/-! ## Language resolution (`SPDXVerifier.get_language_for_file`) -/

/-- The verifier state consulted by `get_language_for_file`: the two
registry dicts, the three default-file-type switches, and the
`default_file_type` block plus `languages` keys of the configuration. -/
structure VerifierConfig where
  ext_to_lang : List (String × String)
  filename_to_lang : List (String × String)
  enable_default_file_type : Bool
  disable_default_file_type : Bool
  default_file_type_override : Option String
  default_config_enabled : Bool
  default_config_language : Option String
  language_names : List String
deriving Repr, DecidableEq

/-- The `should_use_default` computation inside
`get_language_for_file`: explicitly enabled by the caller, or (when not
explicitly disabled) enabled by configuration. -/
def should_use_default (v : VerifierConfig) : Bool :=
  if v.enable_default_file_type then true
  else if !v.disable_default_file_type then v.default_config_enabled
  else false

/-- `List.contains` (with String's lawful `BEq`) implies membership. -/
theorem contains_mem {x : String} {l : List String} (h : l.contains x = true) :
    x ∈ l := by
  rw [List.contains_eq_any_beq, List.any_eq_true] at h
  obtain ⟨y, hy, hyx⟩ := h
  rw [beq_iff_eq] at hyx
  exact hyx ▸ hy

/-- Python truthiness of an `Optional[str]`: `None` and the empty string
are falsy. -/
def optTruthy : Option String → Bool
  | none => false
  | some s => s != ""

/-- `SPDXVerifier.get_language_for_file` as a function of the file name:
extension lookup, then filename lookup, then the legacy
equals-or-ends-with scan over registered extensions, then the
default-file-type fallback (caller override first, validated against the
configured languages). -/
def get_language_for_file (v : VerifierConfig) (name : String) : Option String :=
  match List.lookup (lowerStr (pathSuffix name)) v.ext_to_lang with
  | some lang => some lang
  | none =>
    match List.lookup (lowerStr name) v.filename_to_lang with
    | some lang => some lang
    | none =>
      match v.ext_to_lang.find? (fun p =>
          lowerStr name == lowerStr p.1 || strEndsWith (lowerStr name) (lowerStr p.1)) with
      | some p => some p.2
      | none =>
        if should_use_default v then
          match (if optTruthy v.default_file_type_override then
                   v.default_file_type_override
                 else v.default_config_language) with
          | some dl =>
            if dl != "" && v.language_names.contains dl then some dl else none
          | none => none
        else none

/-- **C3.** `get_language_for_file` resolves in the documented order with
first match winning: (1) lowercased extension against the extension
registry; (2) lowercased file name against the filename registry; (3) the
legacy equals-or-ends-with extension scan; (4) when default-file-type mode
is active, a present (nonempty, hence truthy) and valid caller override
beats the configured fallback language, and the configured fallback is
used only when no override is given; (5) with the mode inactive the
result is `none`. -/
theorem C3_resolution_order (v : VerifierConfig) (name : String) :
    (∀ l, List.lookup (lowerStr (pathSuffix name)) v.ext_to_lang = some l →
      get_language_for_file v name = some l) ∧
    (List.lookup (lowerStr (pathSuffix name)) v.ext_to_lang = none →
      ∀ l, List.lookup (lowerStr name) v.filename_to_lang = some l →
        get_language_for_file v name = some l) ∧
    (List.lookup (lowerStr (pathSuffix name)) v.ext_to_lang = none →
      List.lookup (lowerStr name) v.filename_to_lang = none →
      ∀ p, v.ext_to_lang.find? (fun p =>
          lowerStr name == lowerStr p.1 || strEndsWith (lowerStr name) (lowerStr p.1)) =
            some p →
        get_language_for_file v name = some p.2) ∧
    (List.lookup (lowerStr (pathSuffix name)) v.ext_to_lang = none →
      List.lookup (lowerStr name) v.filename_to_lang = none →
      v.ext_to_lang.find? (fun p =>
          lowerStr name == lowerStr p.1 || strEndsWith (lowerStr name) (lowerStr p.1)) =
            none →
      should_use_default v = true →
      ∀ o, v.default_file_type_override = some o → o ≠ "" →
        v.language_names.contains o = true →
        get_language_for_file v name = some o) ∧
    (List.lookup (lowerStr (pathSuffix name)) v.ext_to_lang = none →
      List.lookup (lowerStr name) v.filename_to_lang = none →
      v.ext_to_lang.find? (fun p =>
          lowerStr name == lowerStr p.1 || strEndsWith (lowerStr name) (lowerStr p.1)) =
            none →
      should_use_default v = true →
      v.default_file_type_override = none →
      ∀ d, v.default_config_language = some d → d ≠ "" →
        v.language_names.contains d = true →
        get_language_for_file v name = some d) ∧
    (List.lookup (lowerStr (pathSuffix name)) v.ext_to_lang = none →
      List.lookup (lowerStr name) v.filename_to_lang = none →
      v.ext_to_lang.find? (fun p =>
          lowerStr name == lowerStr p.1 || strEndsWith (lowerStr name) (lowerStr p.1)) =
            none →
      should_use_default v = false →
      get_language_for_file v name = none) := by
  refine ⟨?_, ?_, ?_, ?_, ?_, ?_⟩
  · intro l h1
    unfold get_language_for_file
    rw [h1]
  · intro h1 l h2
    unfold get_language_for_file
    rw [h1, h2]
  · intro h1 h2 p h3
    unfold get_language_for_file
    rw [h1, h2, h3]
  · intro h1 h2 h3 h4 o h5 ho h6
    unfold get_language_for_file
    rw [h1, h2, h3, h5]
    simp only [h4, if_true]
    simp [optTruthy, ho, h6]
    exact contains_mem h6
  · intro h1 h2 h3 h4 h5 d h6 hd h7
    unfold get_language_for_file
    rw [h1, h2, h3, h5, h6]
    simp only [h4, if_true]
    simp [optTruthy, hd, h7]
    exact contains_mem h7
  · intro h1 h2 h3 h4
    unfold get_language_for_file
    rw [h1, h2, h3]
    simp [h4]

/-- Witness for C3: a registry mapping `.py` to `python` resolves
`spdx_verify.py` by its extension. -/
theorem C3_resolution_order_witness :
    get_language_for_file
      ⟨[(".py", "python"), (".rs", "rust")], [("makefile", "makefile")],
        false, false, none, false, none, ["python", "rust", "makefile"]⟩
      "spdx_verify.py" = some "python" :=
  (C3_resolution_order _ "spdx_verify.py").1 "python" (by decide)

/-! ## REUSE compliance (`extract_license_identifiers_from_file`,
`verify_reuse_compliance`) -/

/-- Model of Python's `s.replace(pat, rep)` (leftmost, non-overlapping),
with the list length as structural fuel (each step consumes at least one
character, so the initial length is always enough). -/
def replaceAux (pat rep : List Char) : Nat → List Char → List Char
  | _, [] => []
  | 0, cs => cs
  | fuel + 1, c :: rest =>
    if pat ≠ [] && pat.isPrefixOf (c :: rest) then
      rep ++ replaceAux pat rep fuel ((c :: rest).drop pat.length)
    else
      c :: replaceAux pat rep fuel rest

/-- Model of Python's `s.replace(pat, rep)` for a nonempty pattern. -/
def strReplace (s pat rep : String) : String :=
  String.mk (replaceAux pat.data rep.data s.data.length s.data)

/-- Model of Python's `s.split(sep)` for a nonempty separator (leftmost,
non-overlapping, keeping empty pieces), with length fuel. -/
def splitSubAux (sep : List Char) : Nat → List Char → List (List Char)
  | _, [] => [[]]
  | 0, cs => [cs]
  | fuel + 1, c :: rest =>
    if sep ≠ [] && sep.isPrefixOf (c :: rest) then
      [] :: splitSubAux sep fuel ((c :: rest).drop sep.length)
    else
      match splitSubAux sep fuel rest with
      | h :: t => (c :: h) :: t
      | [] => [[c]]

/-- Model of Python's `s.split(sep)` on strings. -/
def splitOnSub (s sep : String) : List String :=
  (splitSubAux sep.data s.data.length s.data).map String.mk

/-- Insertion into a Python-set modelled as a duplicate-free list. -/
def setAdd (acc : List String) (x : String) : List String :=
  if acc.contains x then acc else acc ++ [x]

/-- `extract_license_identifiers_from_file` as a function of the file
content: scan the first 20 lines, and for each stripped line containing
the license marker take the part after the first marker occurrence, strip
it, delete `-->` and `*/`, strip again, and add it to the result set. -/
def extract_license_identifiers (content : String) : List String :=
  ((splitLines content).take 20).foldl
    (fun acc rawLine =>
      let line := strTrim rawLine
      if strContains line SPDX_LICENSE_IDENTIFIER then
        match (splitOnSub line SPDX_LICENSE_IDENTIFIER).get? 1 with
        | some part =>
          setAdd acc
            (strTrim (strReplace (strReplace (strTrim part) "-->" "") "*/" ""))
        | none => acc
      else acc)
    []

/-- The set of license expressions used across all tracked files
(`used_licenses` in `verify_reuse_compliance`). -/
def collectUsed (contents : List String) : List String :=
  contents.foldl
    (fun acc c => (extract_license_identifiers c).foldl setAdd acc) []

/-- The filesystem facts `verify_reuse_compliance` consults: the file
names inside `LICENSES/` (or `none` when the directory is absent) and the
contents of the tracked files. -/
structure RepoFs where
  licensesDirFiles : Option (List String)
  trackedContents : List String

/-- The issue string for a used license expression without a
corresponding license file. -/
def missing_license_msg (lid : String) : String :=
  "Missing license file: LICENSES/" ++ lid ++ ".txt"

/-- The issue string for a file in `LICENSES/` not ending in `.txt`. -/
def bad_ext_msg (f : String) : String :=
  "License file with incorrect extension: LICENSES/" ++ f ++ " (should be .txt)"

/-- `verify_reuse_compliance`: absence of `LICENSES/` is the sole issue;
otherwise one issue per used license expression without `<expr>.txt` in
the directory, plus one per directory file not ending in `.txt`;
compliance is emptiness of the issue list. -/
def verify_reuse_compliance (fs : RepoFs) : Bool × List String :=
  match fs.licensesDirFiles with
  | none => (false, ["LICENSES directory not found at repository root"])
  | some dirFiles =>
    let used := collectUsed fs.trackedContents
    let issues :=
      (used.filter (fun lid => !dirFiles.contains (lid ++ ".txt"))).map
        missing_license_msg ++
      (dirFiles.filter (fun f => !(strEndsWith f ".txt"))).map bad_ext_msg
    (issues.isEmpty, issues)

theorem mem_foldl_setAdd (l : List String) :
    ∀ (acc : List String) (x : String),
      x ∈ l.foldl setAdd acc ↔ x ∈ acc ∨ x ∈ l := by
  induction l with
  | nil => intro acc x; simp
  | cons e t ih =>
    intro acc x
    rw [List.foldl_cons, ih]
    unfold setAdd
    by_cases hc : acc.contains e
    · have he : e ∈ acc := by
        rw [List.contains_eq_any_beq, List.any_eq_true] at hc
        obtain ⟨y, hy, hye⟩ := hc
        rw [beq_iff_eq] at hye
        exact hye ▸ hy
      rw [if_pos hc]
      constructor
      · rintro (h | h)
        · exact Or.inl h
        · exact Or.inr (List.mem_cons_of_mem _ h)
      · rintro (h | h)
        · exact Or.inl h
        · rcases List.mem_cons.mp h with rfl | h'
          · exact Or.inl he
          · exact Or.inr h'
    · rw [if_neg hc]
      constructor
      · rintro (h | h)
        · rcases List.mem_append.mp h with h' | h'
          · exact Or.inl h'
          · exact Or.inr (List.mem_cons.mpr (Or.inl (by simpa using h')))
        · exact Or.inr (List.mem_cons_of_mem _ h)
      · rintro (h | h)
        · exact Or.inl (List.mem_append.mpr (Or.inl h))
        · rcases List.mem_cons.mp h with rfl | h'
          · exact Or.inl (List.mem_append.mpr (Or.inr (by simp)))
          · exact Or.inr h'

theorem nodup_foldl_setAdd (l : List String) :
    ∀ acc : List String, acc.Nodup → (l.foldl setAdd acc).Nodup := by
  induction l with
  | nil => intro acc h; exact h
  | cons e t ih =>
    intro acc h
    rw [List.foldl_cons]
    apply ih
    unfold setAdd
    by_cases hc : acc.contains e
    · rw [if_pos hc]; exact h
    · rw [if_neg hc]
      apply List.Nodup.append h (by simp)
      intro x hx hk
      simp at hk
      subst hk
      exact hc (by rw [List.contains_eq_any_beq, List.any_eq_true]; exact ⟨x, hx, by simp⟩)

theorem mem_collectUsed (contents : List String) (x : String) :
    x ∈ collectUsed contents ↔
      ∃ c ∈ contents, x ∈ extract_license_identifiers c := by
  unfold collectUsed
  suffices h : ∀ (cs : List String) (acc : List String),
      x ∈ cs.foldl (fun acc c => (extract_license_identifiers c).foldl setAdd acc) acc ↔
        x ∈ acc ∨ ∃ c ∈ cs, x ∈ extract_license_identifiers c by
    rw [h contents []]
    simp
  intro cs
  induction cs with
  | nil => intro acc; simp
  | cons c t ih =>
    intro acc
    rw [List.foldl_cons, ih, mem_foldl_setAdd]
    constructor
    · rintro ((h | h) | ⟨d, hd, hx⟩)
      · exact Or.inl h
      · exact Or.inr ⟨c, List.mem_cons_self c t, h⟩
      · exact Or.inr ⟨d, List.mem_cons_of_mem _ hd, hx⟩
    · rintro (h | ⟨d, hd, hx⟩)
      · exact Or.inl (Or.inl h)
      · rcases List.mem_cons.mp hd with rfl | hd'
        · exact Or.inl (Or.inr hx)
        · exact Or.inr ⟨d, hd', hx⟩

theorem nodup_collectUsed (contents : List String) :
    (collectUsed contents).Nodup := by
  unfold collectUsed
  suffices h : ∀ (cs : List String) (acc : List String), acc.Nodup →
      (cs.foldl (fun acc c => (extract_license_identifiers c).foldl setAdd acc) acc).Nodup by
    exact h contents [] (by simp)
  intro cs
  induction cs with
  | nil => intro acc h; exact h
  | cons c t ih =>
    intro acc h
    rw [List.foldl_cons]
    exact ih _ (nodup_foldl_setAdd _ acc h)

/-- **C7.** `verify_reuse_compliance` is compliant iff its issue list is
empty; an absent `LICENSES/` directory yields exactly one issue and no
further checks; otherwise the issues are exactly the missing-license-file
issues (one per distinct used expression without `<expr>.txt`) plus the
wrong-extension issues (one per directory file not ending in `.txt`); and
on the concrete scenario with used licenses `Apache-2.0` and `MIT` but
only `Apache-2.0.txt` present, the report is non-compliant with exactly
one issue naming `MIT.txt`. -/
theorem C7_reuse_compliance (fs : RepoFs) :
    ((verify_reuse_compliance fs).1 = true ↔ (verify_reuse_compliance fs).2 = []) ∧
    (fs.licensesDirFiles = none →
      verify_reuse_compliance fs =
        (false, ["LICENSES directory not found at repository root"])) ∧
    (∀ dirFiles, fs.licensesDirFiles = some dirFiles →
      ((collectUsed fs.trackedContents).Nodup ∧
       (∀ lid, lid ∈ collectUsed fs.trackedContents ↔
          ∃ c ∈ fs.trackedContents, lid ∈ extract_license_identifiers c) ∧
       (∀ msg, msg ∈ (verify_reuse_compliance fs).2 ↔
          (∃ lid, (∃ c ∈ fs.trackedContents, lid ∈ extract_license_identifiers c) ∧
            dirFiles.contains (lid ++ ".txt") = false ∧
            msg = missing_license_msg lid) ∨
          (∃ f ∈ dirFiles, strEndsWith f ".txt" = false ∧ msg = bad_ext_msg f)) ∧
       (verify_reuse_compliance fs).2.length =
         ((collectUsed fs.trackedContents).filter
           (fun lid => !dirFiles.contains (lid ++ ".txt"))).length +
         (dirFiles.filter (fun f => !(strEndsWith f ".txt"))).length)) ∧
    verify_reuse_compliance ⟨some ["Apache-2.0.txt"],
      ["# SPDX-License-Identifier: Apache-2.0\ncode",
       "# SPDX-License-Identifier: MIT\ncode"]⟩ =
      (false, ["Missing license file: LICENSES/MIT.txt"]) := by
  refine ⟨?_, ?_, ?_, by decide⟩
  · unfold verify_reuse_compliance
    cases fs.licensesDirFiles with
    | none => simp
    | some dirFiles => simp [List.isEmpty_iff]
  · intro h
    unfold verify_reuse_compliance
    rw [h]
  · intro dirFiles h
    refine ⟨nodup_collectUsed _, fun lid => mem_collectUsed _ lid, ?_, ?_⟩
    · intro msg
      unfold verify_reuse_compliance
      rw [h]
      simp only [List.mem_append, List.mem_map, List.mem_filter,
        mem_collectUsed, Bool.not_eq_true']
      constructor
      · rintro (⟨lid, ⟨hused, hmiss⟩, rfl⟩ | ⟨f, ⟨hf, hext⟩, rfl⟩)
        · exact Or.inl ⟨lid, hused, hmiss, rfl⟩
        · exact Or.inr ⟨f, hf, hext, rfl⟩
      · rintro (⟨lid, hused, hmiss, rfl⟩ | ⟨f, hf, hext, rfl⟩)
        · exact Or.inl ⟨lid, ⟨hused, hmiss⟩, rfl⟩
        · exact Or.inr ⟨f, ⟨hf, hext⟩, rfl⟩
    · unfold verify_reuse_compliance
      rw [h]
      simp

/-- Witness for C7: with the `LICENSES` directory absent the report is
non-compliant with the single missing-directory issue. -/
theorem C7_reuse_compliance_witness :
    verify_reuse_compliance ⟨none, ["# SPDX-License-Identifier: MIT"]⟩ =
      (false, ["LICENSES directory not found at repository root"]) :=
  (C7_reuse_compliance ⟨none, ["# SPDX-License-Identifier: MIT"]⟩).2.1 rfl

/-! ## The `verify` path loop -/

/-- The verifier state used by the per-path loop of `verify`. -/
structure Verifier where
  license_id : String
  copyright_holder : String
  skip_patterns : List String
  lang : VerifierConfig

/-- One input path of `verify`: an existing file (with its name and
content), an existing directory (with the names and contents of the
regular files below it, as enumerated by `rglob`), or a path that is
neither. -/
inductive InputPath where
  | file (name content : String)
  | dir (entries : List (String × String))
  | missing
deriving Repr

/-- The shared per-file pipeline of `verify` / `verify_directory` (without
pre-commit filtering): skip-pattern check, then language resolution
(`none` means the file is skipped and contributes nothing), then the
header check, whose pass flag is returned. -/
def processFile (v : Verifier) (name content : String) : Option Bool :=
  if should_skip_file v.skip_patterns name then none
  else
    match get_language_for_file v.lang name with
    | none => none
    | some _ => some (check_license_header v.license_id v.copyright_holder content).1

/-- One step of the path loop: a file updates `all_passed` and the
checked counter through `processFile`; a directory folds the same
pipeline over its files; a nonexistent path forces `all_passed := false`
and checks nothing. -/
def verifyStep (v : Verifier) (acc : Bool × Nat) : InputPath → Bool × Nat
  | .file name content =>
    match processFile v name content with
    | none => acc
    | some ok => (acc.1 && ok, acc.2 + 1)
  | .dir entries =>
    entries.foldl
      (fun acc e =>
        match processFile v e.1 e.2 with
        | none => acc
        | some ok => (acc.1 && ok, acc.2 + 1))
      acc
  | .missing => (false, acc.2)

/-- The `for path_str in paths` loop of `verify`, returning the final
`all_passed` flag and the number of files checked. -/
def verifyAll (v : Verifier) (paths : List InputPath) : Bool × Nat :=
  paths.foldl (verifyStep v) (true, 0)

/-- The process exit status derived from `all_passed`
(`sys.exit(1)` on failure). -/
def exit_status (all_passed : Bool) : Nat :=
  if all_passed then 0 else 1

theorem dirfold_shift (v : Verifier) (entries : List (String × String)) :
    ∀ (b b' : Bool) (n : Nat),
      (entries.foldl
        (fun acc e =>
          match processFile v e.1 e.2 with
          | none => acc
          | some ok => (acc.1 && ok, acc.2 + 1)) (b, n)).2 =
      n + (entries.foldl
        (fun acc e =>
          match processFile v e.1 e.2 with
          | none => acc
          | some ok => (acc.1 && ok, acc.2 + 1)) (b', 0)).2 := by
  induction entries with
  | nil => intro b b' n; simp
  | cons e t ih =>
    intro b b' n
    rw [List.foldl_cons, List.foldl_cons]
    cases hp : processFile v e.1 e.2 with
    | none => simp only [hp]; exact ih b b' n
    | some ok =>
      simp only [hp]
      rw [ih (b && ok) (b' && ok) (n + 1), ih (b' && ok) (b' && ok) (0 + 1)]
      omega

theorem verifyStep_snd_shift (v : Verifier) (p : InputPath) :
    ∀ (b b' : Bool) (n : Nat),
      (verifyStep v (b, n) p).2 = n + (verifyStep v (b', 0) p).2 := by
  cases p with
  | file name content =>
    intro b b' n
    unfold verifyStep
    cases hp : processFile v name content with
    | none => simp [hp]
    | some ok => simp [hp]
  | dir entries =>
    intro b b' n
    unfold verifyStep
    exact dirfold_shift v entries b b' n
  | missing => intro b b' n; simp [verifyStep]

theorem dirfold_false (v : Verifier) (entries : List (String × String)) :
    ∀ n : Nat,
      (entries.foldl
        (fun acc e =>
          match processFile v e.1 e.2 with
          | none => acc
          | some ok => (acc.1 && ok, acc.2 + 1)) (false, n)).1 = false := by
  induction entries with
  | nil => intro n; rfl
  | cons e t ih =>
    intro n
    rw [List.foldl_cons]
    cases hp : processFile v e.1 e.2 with
    | none => simp only [hp]; exact ih n
    | some ok => simp only [hp, Bool.false_and]; exact ih (n + 1)

theorem verifyStep_false (v : Verifier) (p : InputPath) :
    ∀ n : Nat, (verifyStep v (false, n) p).1 = false := by
  cases p with
  | file name content =>
    intro n
    unfold verifyStep
    cases hp : processFile v name content with
    | none => simp [hp]
    | some ok => simp [hp]
  | dir entries => intro n; exact dirfold_false v entries n
  | missing => intro n; rfl

theorem foldl_verifyStep_false (v : Verifier) (paths : List InputPath) :
    ∀ n : Nat, (paths.foldl (verifyStep v) (false, n)).1 = false := by
  induction paths with
  | nil => intro n; rfl
  | cons p t ih =>
    intro n
    rw [List.foldl_cons]
    have hs : verifyStep v (false, n) p = (false, (verifyStep v (false, n) p).2) :=
      Prod.ext (verifyStep_false v p n) rfl
    rw [hs]
    exact ih _

theorem foldl_verifyStep_snd_shift (v : Verifier) (paths : List InputPath) :
    ∀ (b b' : Bool) (n : Nat),
      (paths.foldl (verifyStep v) (b, n)).2 =
        n + (paths.foldl (verifyStep v) (b', 0)).2 := by
  induction paths with
  | nil => intro b b' n; simp
  | cons p t ih =>
    intro b b' n
    rw [List.foldl_cons, List.foldl_cons]
    have e1 : verifyStep v (b, n) p =
        ((verifyStep v (b, n) p).1, n + (verifyStep v (b', 0) p).2) :=
      Prod.ext rfl (verifyStep_snd_shift v p b b' n)
    have e2 : verifyStep v (b', 0) p =
        ((verifyStep v (b', 0) p).1, 0 + (verifyStep v (b', 0) p).2) :=
      Prod.ext rfl (verifyStep_snd_shift v p b' b' 0)
    rw [e1, e2, ih ((verifyStep v (b, n) p).1) b' _,
      ih ((verifyStep v (b', 0) p).1) b' _]
    omega

/-- **C8.** A path argument that is neither an existing file nor an
existing directory flips the overall run result to failed (non-zero exit
status), while every other path in the list is still processed: the
checked-file count of the run equals the counts contributed by the paths
before and after the nonexistent one, exactly as in the run without it. -/
theorem C8_missing_path (v : Verifier) (xs ys : List InputPath) :
    (verifyAll v (xs ++ InputPath.missing :: ys)).1 = false ∧
    exit_status (verifyAll v (xs ++ InputPath.missing :: ys)).1 = 1 ∧
    (verifyAll v (xs ++ InputPath.missing :: ys)).2 =
      (verifyAll v xs).2 + (verifyAll v ys).2 ∧
    (verifyAll v (xs ++ ys)).2 = (verifyAll v xs).2 + (verifyAll v ys).2 := by
  have hfalse : (verifyAll v (xs ++ InputPath.missing :: ys)).1 = false := by
    unfold verifyAll
    rw [List.foldl_append, List.foldl_cons]
    have hm : verifyStep v (xs.foldl (verifyStep v) (true, 0)) InputPath.missing =
        (false, (xs.foldl (verifyStep v) (true, 0)).2) := rfl
    rw [hm]
    exact foldl_verifyStep_false v ys _
  refine ⟨hfalse, by rw [hfalse]; rfl, ?_, ?_⟩
  · unfold verifyAll
    rw [List.foldl_append, List.foldl_cons]
    have hm : verifyStep v (xs.foldl (verifyStep v) (true, 0)) InputPath.missing =
        (false, (xs.foldl (verifyStep v) (true, 0)).2) := rfl
    rw [hm, foldl_verifyStep_snd_shift v ys false true _]
  · unfold verifyAll
    rw [List.foldl_append]
    obtain ⟨b1, n1⟩ := xs.foldl (verifyStep v) (true, 0)
    rw [foldl_verifyStep_snd_shift v ys b1 true n1]
